import Mathlib

/-!
Shallow embedding of `src/include/freelist.h` (namespace `fl`): a
fixed-capacity object pool over an intrusive singly-linked free list with a
sentinel tail.

Modelling conventions:

* The backing array of `N + 1` slots is a `List (SlotContent T)`; slot
  addresses are indices `0 .. N`.  Pointers stored in link words are slot
  indices (`Option Nat`, `none` = null).
* Each slot's storage is type-punned in the source: when free it is a
  `FreeListNode` (one atomic next word), when allocated it is a
  `FreeListAlloc<T> = {m_allocator back-pointer; m_data : T}`.  The model
  makes the two views a sum `SlotContent`.
* The pool's own address (the `this` written into `m_allocator`) is a
  plain `Nat` field `addr`.
* A user constructor invocation is its outcome `mk : Except E T`:
  `.ok v` for a normal construction producing `v`, `.error e` for a throw.
* The MT variants are sequentialized: with no concurrent writers, every
  `compare_exchange_strong` whose expected value was just loaded succeeds on
  the first iteration, and `exchange` is plain read-then-write.  The claims
  settled here are all about completed, non-interleaved operations.
-/

namespace FL

/-- Storage of one slot of the backing array.  `free next` is the
`FreeListNode` view (link word = `next`); `alloc backPtr data` is the
`FreeListAlloc<T>` view (`m_allocator = backPtr`, `m_data = data`). -/
inductive SlotContent (T : Type) where
  | free (next : Option Nat)
  | alloc (backPtr : Nat) (data : T)
deriving DecidableEq, Repr

/-- Pool state: backing slots, head index, tail index, pool address. -/
structure Pool (T : Type) where
  addr : Nat
  slots : List (SlotContent T)
  head : Nat
  tail : Nat
deriving DecidableEq, Repr

variable {T E : Type}

/-- Reading a slot's link word (`FreeListNode::next`).  On an allocated slot
this reinterprets the back-pointer as a node pointer, exactly as the punned
C++ storage would; an out-of-range read is modelled as null. -/
def linkOf : Option (SlotContent T) → Option Nat
  | some (.free nx) => nx
  | some (.alloc bp _) => some bp
  | none => none

/-- Writing a slot's link word (`FreeListNode::setNext`).  The write makes
the storage a node whose link word is `nx` (it clobbers whatever view the
slot previously had). -/
def setLink (nx : Option Nat) (s : List (SlotContent T)) (i : Nat) :
    List (SlotContent T) :=
  s.set i (.free nx)

/-- Is slot `i` currently allocated (holding a live `FreeListAlloc<T>`)? -/
def isAllocated (p : Pool T) (i : Nat) : Prop :=
  ∃ bp d, p.slots.get? i = some (.alloc bp d)

instance (p : Pool T) (i : Nat) : Decidable (isAllocated p i) := by
  unfold isAllocated
  match h : p.slots.get? i with
  | some (.alloc bp d) => exact .isTrue ⟨bp, d, rfl⟩
  | some (.free nx) => exact .isFalse (by simp [h])
  | none => exact .isFalse (by simp [h])

/-- Initialization, `FreeListBase::initFreeList(array, size)`, together with the storage
constructors (`FreeListStatic` / `FreeListDynamic` both call it on an array
of `size + 1` slots): slot `i` links to slot `i + 1` for `i < size`, slot
`size` (the sentinel) gets a null link, `head = slot 0`, `tail = slot size`. -/
def initPool (T : Type) (addr size : Nat) : Pool T :=
  { addr := addr
    slots := (List.range (size + 1)).map fun i =>
      if i < size then .free (some (i + 1)) else .free none
    head := 0
    tail := size }

/-- The `FreeListStatic` constructor: `static_assert(N >= 1)` then
`initFreeList(array, N)`.  The static assertion is the hypothesis. -/
def staticInit (T : Type) (addr N : Nat) (_hN : 1 ≤ N) : Pool T :=
  initPool T addr N

/-- The `FreeListDynamic` constructor: no size check at all, just
`initFreeList(array, size)` on a successfully obtained buffer. -/
def dynamicInit (T : Type) (addr size : Nat) : Pool T :=
  initPool T addr size

/-- Allocation, `FreeListSTConstruct::construct` (single-threaded, lines 122–141):
read `next ← m_head->next()`; if null return an empty handle; in-place
construct `FreeListAlloc<T>(this, args...)` into the head slot; on success
advance `m_head ← next` and hand out the head slot; if the `T` constructor
throws, the partially-constructed `FreeListAlloc` has already clobbered the
head slot's link word with the back-pointer, so the catch block repairs it
with `m_head->setNext(next)` and rethrows.  Returns
`(outcome, final state)`; outcome `.ok none` = empty handle,
`.ok (some i)` = handle owning slot `i`, `.error e` = propagated throw. -/
def stConstruct (p : Pool T) (mk : Except E T) :
    Except E (Option Nat) × Pool T :=
  match linkOf (p.slots.get? p.head) with
  | none => (.ok none, p)
  | some n =>
    match mk with
    | .ok v =>
      (.ok (some p.head),
       { p with slots := p.slots.set p.head (.alloc p.addr v), head := n })
    | .error e =>
      -- placement-new wrote m_allocator, then T's constructor threw;
      -- the catch block's m_head->setNext(next) restores the link word
      (.error e, { p with slots := setLink (some n) p.slots p.head })

/-- Allocation, `FreeListMTConstruct::construct` (lock-free, lines 68–96),
sequentialized.  The pop loop
`do { next = head->next(); } while (next && !CAS(m_head: head → next))`
runs exactly one iteration without interference: if `next` is null it exits
returning an empty handle; otherwise the CAS succeeds and `m_head` advances
to `next` before the in-place construction.  If the `T` constructor throws,
the recovery loop `do { head->setNext(next); } while (!CAS(m_head: next → head))`
also succeeds on its first iteration, reinstating the popped slot at the
head, and the exception is rethrown. -/
def mtConstruct (p : Pool T) (mk : Except E T) :
    Except E (Option Nat) × Pool T :=
  match linkOf (p.slots.get? p.head) with
  | none => (.ok none, p)
  | some n =>
    match mk with
    | .ok v =>
      (.ok (some p.head),
       { p with slots := p.slots.set p.head (.alloc p.addr v), head := n })
    | .error e =>
      (.error e,
       { p with slots := setLink (some n) p.slots p.head, head := p.head })

/-- Release, `FreeListSTDestroy::destroy(node)` (lines 192–198): destroy `m_data` in
place, null the released slot's link word, link the current sentinel to the
released slot (`m_tail->setNext(freeNode)`), and make the released slot the
new sentinel (`m_tail = freeNode`). -/
def stDestroy (p : Pool T) (i : Nat) : Pool T :=
  let s1 := setLink none p.slots i
  let s2 := setLink (some i) s1 p.tail
  { p with slots := s2, tail := i }

/-- Release, `FreeListMTDestroy::destroy(node)` (lines 163–169), sequentialized:
destroy `m_data`, null the slot's link word, `prev ← m_tail.exchange(slot)`,
then `prev->setNext(slot)`. -/
def mtDestroy (p : Pool T) (i : Nat) : Pool T :=
  let s1 := setLink none p.slots i
  let prev := p.tail
  let s2 := setLink (some i) s1 prev
  { p with slots := s2, tail := i }

/-! Address layer for the deleter (`FreeListDeleter::operator()`, lines
47–51, and the `FreeListAlloc` layout, lines 34–41).  Slot `i` of the
backing array starts at machine address `base + stride * i`; the payload
(`m_data`) sits one pointer word above the slot start, the back-pointer
(`m_allocator`) at the slot start itself. -/

/-- One pointer word (`sizeof(void*)` on the 64-bit targets the tests run on). -/
def wordSize : Nat := 8

/-- Byte layout of the backing array: `base` address and per-slot `stride`
(`sizeof(FreeListAlloc<T>)`). -/
structure Layout where
  base : Nat
  stride : Nat
deriving DecidableEq, Repr

/-- Address of slot `i` (the `FreeListAlloc<T>` object / the link word). -/
def slotAddr (L : Layout) (i : Nat) : Nat := L.base + L.stride * i

/-- Address of slot `i`'s payload (`&alloc->m_data`). -/
def payloadAddr (L : Layout) (i : Nat) : Nat := slotAddr L i + wordSize

/-- Recover a slot index from a slot start address. -/
def addrToIndex (L : Layout) (a : Nat) : Nat := (a - L.base) / L.stride

/-- Handle teardown, `FreeListDeleter::operator()(T* p)`: `cursor = (void**)p - 1` (one word
below the payload, i.e. the slot start), read the back-pointer stored there,
and call `destroy` on the pool it names, passing the `FreeListAlloc` at
`cursor`.  Returns the back-pointer that was read together with the pool
state after `destroy` (single-threaded destroy variant). -/
def deleterRun (L : Layout) (p : Pool T) (payload : Nat) : Nat × Pool T :=
  let cursor := payload - wordSize
  let i := addrToIndex L cursor
  let bp := match p.slots.get? i with
    | some (.alloc b _) => b
    | _ => 0
  (bp, stDestroy p i)

/-! The free-list chain and the reachable-state relation. -/

/-- Chain predicate `IsChain s i l`: following link words from slot `i` through `s` traces
exactly the index list `l`, ending at a slot whose link word is null. -/
inductive IsChain (s : List (SlotContent T)) : Nat → List Nat → Prop
  | last (i : Nat) (h : s.get? i = some (.free none)) : IsChain s i [i]
  | cons (i j : Nat) (l : List Nat)
      (h : s.get? i = some (.free (some j)))
      (tl : IsChain s j l) : IsChain s i (i :: l)

/-- Pool invariant relative to an explicit chain `l`: the duplicate-free
free-list chain from `head` is `l`, it ends at `tail`, its members are
exactly the slots that are not allocated, and all its members are in
range. -/
def InvC (p : Pool T) (l : List Nat) : Prop :=
  IsChain p.slots p.head l ∧
  l.Nodup ∧
  l.getLast? = some p.tail ∧
  (∀ j, j < p.slots.length → (j ∈ l ↔ ¬ isAllocated p j)) ∧
  (∀ j ∈ l, j < p.slots.length)

/-- Pool invariant: some chain witnesses `InvC`. -/
def Inv (p : Pool T) : Prop := ∃ l : List Nat, InvC p l

/-- One completed pool operation: a construct (either discipline, any
constructor outcome) or a destroy (either discipline) of a live handle's
slot. -/
inductive Step : Pool T → Pool T → Prop
  | stC (p : Pool T) (mk : Except Unit T) : Step p (stConstruct p mk).2
  | mtC (p : Pool T) (mk : Except Unit T) : Step p (mtConstruct p mk).2
  | stD (p : Pool T) (i : Nat) (h : isAllocated p i) : Step p (stDestroy p i)
  | mtD (p : Pool T) (i : Nat) (h : isAllocated p i) : Step p (mtDestroy p i)

/-- States reachable from a freshly initialized pool by completed
operations. -/
def Reachable (p q : Pool T) : Prop := Relation.ReflTransGen Step p q

/-! Iterated operations, for the multi-allocation claims. -/

/-- Iterated allocation: `k` successive single-threaded allocations, the `j`-th constructing
value `f j` (all succeeding constructors). -/
def allocIter (f : Nat → T) : Nat → Pool T → Pool T
  | 0, p => p
  | k + 1, p => (stConstruct (allocIter f k p) (.ok (f k) : Except Unit T)).2

/-- Successive single-threaded destroys of the slots listed in `rs`. -/
def destroyIter : List Nat → Pool T → Pool T
  | [], p => p
  | i :: rs, p => destroyIter rs (stDestroy p i)

/-- Expected slot array after the first `k` slots of an `N`-capacity pool
have been allocated in index order (values `f 0, …, f (k-1)`). -/
def fillSlots (addr N k : Nat) (f : Nat → T) : List (SlotContent T) :=
  (List.range (N + 1)).map fun j =>
    if j < k then .alloc addr (f j)
    else if j < N then .free (some (j + 1)) else .free none

/-! Concrete states of the SPSC `N = 3` seed run (the pool lives at model
address 100; payloads are pairs of naturals). -/

/-- SPSC pool of capacity 3, freshly initialized. -/
def spscP0 : Pool (Nat × Nat) := initPool (Nat × Nat) 100 3

/-- State after the first allocation, arguments `(0, 0)`. -/
def spscP1 : Pool (Nat × Nat) :=
  (stConstruct spscP0 (.ok (0, 0) : Except Unit (Nat × Nat))).2

/-- State after the second allocation, arguments `(1, 1)`. -/
def spscP2 : Pool (Nat × Nat) :=
  (stConstruct spscP1 (.ok (1, 1) : Except Unit (Nat × Nat))).2

/-- State after the third allocation, arguments `(2, 2)`. -/
def spscP3 : Pool (Nat × Nat) :=
  (stConstruct spscP2 (.ok (2, 2) : Except Unit (Nat × Nat))).2

/-- State after releasing the second handle (slot 1). -/
def spscP4 : Pool (Nat × Nat) := stDestroy spscP3 1

/-- Concrete byte layout used in counterexamples: base address 0, slot
stride 16 (`sizeof(FreeListAlloc<TestNode>)` = 8-byte back-pointer plus two
4-byte fields). -/
def layout16 : Layout := { base := 0, stride := 16 }

/-! Basic lemmas about lists and chains. -/

/-- Setting an index to the value it already holds is the identity. -/
theorem set_get?_self {α : Type} {s : List α} {i : Nat} {c : α}
    (h : s.get? i = some c) : s.set i c = s := by
  apply List.ext
  intro n
  rw [List.get?_set]
  split
  · next hmn => subst hmn; rw [h]; rfl
  · rfl

/-- A chain is never empty. -/
theorem isChain_ne_nil {s : List (SlotContent T)} {i : Nat} {l : List Nat}
    (h : IsChain s i l) : l ≠ [] := by
  cases h <;> simp

/-- A chain starts at its start index. -/
theorem isChain_cons_shape {s : List (SlotContent T)} {i : Nat} {l : List Nat}
    (h : IsChain s i l) : ∃ l2, l = i :: l2 := by
  cases h with
  | last _ _ => exact ⟨[], rfl⟩
  | cons _ j l2 _ _ => exact ⟨l2, rfl⟩

/-- Every chain member is a free slot. -/
theorem isChain_mem_free {s : List (SlotContent T)} {i : Nat} {l : List Nat}
    (h : IsChain s i l) : ∀ j ∈ l, ∃ nx, s.get? j = some (.free nx) := by
  induction h with
  | last k hk =>
    intro j hj
    rw [List.mem_singleton] at hj
    subst hj
    exact ⟨none, hk⟩
  | cons k m l2 hk _ ih =>
    intro j hj
    rcases List.mem_cons.mp hj with h1 | h2
    · subst h1; exact ⟨some m, hk⟩
    · exact ih j h2

/-- Every chain member is an in-range index. -/
theorem isChain_mem_lt {s : List (SlotContent T)} {i : Nat} {l : List Nat}
    (h : IsChain s i l) : ∀ j ∈ l, j < s.length := by
  intro j hj
  obtain ⟨nx, hx⟩ := isChain_mem_free h j hj
  exact (List.get?_eq_some.mp hx).1

/-- Updating a slot outside a chain leaves the chain intact. -/
theorem isChain_set_of_notMem {s : List (SlotContent T)} {i k : Nat}
    {l : List Nat} {c : SlotContent T}
    (h : IsChain s i l) (hk : k ∉ l) : IsChain (s.set k c) i l := by
  induction h with
  | last m hm =>
    have hkm : k ≠ m := fun he => hk (he ▸ List.mem_singleton.mpr rfl)
    exact .last m (by rw [List.get?_set_ne _ _ hkm]; exact hm)
  | cons m j l2 hm _ ih =>
    have hkm : k ≠ m := fun he => hk (he ▸ List.mem_cons_self m l2)
    have hk2 : k ∉ l2 := fun hmem => hk (List.mem_cons_of_mem _ hmem)
    exact .cons m j l2 (by rw [List.get?_set_ne _ _ hkm]; exact hm) (ih hk2)

/-- The slot at which a chain ends has a null link word. -/
theorem isChain_getLast_free {s : List (SlotContent T)} {i t : Nat}
    {l : List Nat} (h : IsChain s i l) (ht : l.getLast? = some t) :
    s.get? t = some (.free none) := by
  induction h with
  | last m hm =>
    have : m = t := by simpa using ht
    exact this ▸ hm
  | cons m j l2 hm tl ih =>
    obtain ⟨l3, rfl⟩ := isChain_cons_shape tl
    rw [List.getLast?_cons_cons] at ht
    exact ih ht

/-- Appending one freshly nulled slot `k` behind the final slot `t` of a
chain (the two writes of `destroy`) extends the chain by `k`. -/
theorem isChain_extend {s : List (SlotContent T)} {i : Nat} {l : List Nat}
    (hc : IsChain s i l) :
    ∀ t k, l.getLast? = some t → l.Nodup → k ∉ l → k < s.length →
      IsChain ((s.set k (.free none)).set t (.free (some k))) i (l ++ [k]) := by
  induction hc with
  | last m hm =>
    intro t k hlast _ hk hklen
    have htm : m = t := by simpa using hlast
    subst htm
    have hkm : k ≠ m := fun he => hk (he ▸ List.mem_singleton.mpr rfl)
    have hmlen : m < s.length := (List.get?_eq_some.mp hm).1
    refine .cons m k [k] ?_ (.last k ?_)
    · rw [List.get?_set_eq_of_lt]
      rw [List.length_set]
      exact hmlen
    · rw [List.get?_set_ne _ _ (fun he => hkm he.symm)]
      rw [List.get?_set_eq_of_lt _ hklen]
  | cons m j l2 hm tl ih =>
    intro t k hlast hnd hk hklen
    obtain ⟨l3, rfl⟩ := isChain_cons_shape tl
    rw [List.getLast?_cons_cons] at hlast
    have hmem_t : t ∈ j :: l3 := by
      have := List.getLast?_eq_getLast (j :: l3) (by simp)
      rw [this] at hlast
      have := List.getLast_mem (l := j :: l3) (by simp)
      simpa [Option.some_inj.mp hlast] using this
    have hmt : m ≠ t := by
      intro he
      have : m ∉ j :: l3 := (List.nodup_cons.mp hnd).1
      exact this (he ▸ hmem_t)
    have hkm : k ≠ m := fun he => hk (he ▸ List.mem_cons_self m _)
    have hk2 : k ∉ j :: l3 := fun hmem => hk (List.mem_cons_of_mem _ hmem)
    refine .cons m j (j :: l3 ++ [k]) ?_ ?_
    · rw [List.get?_set_ne _ _ (fun he => hmt he.symm),
        List.get?_set_ne _ _ hkm]
      exact hm
    · exact ih t k hlast (List.nodup_cons.mp hnd).2 hk2 hklen

/-- Reduction of `linkOf` on a free slot. -/
@[simp] theorem linkOf_free (nx : Option Nat) :
    linkOf (some (.free nx) : Option (SlotContent T)) = nx := rfl

/-- An element named by `getLast?` is a member. -/
theorem mem_of_getLast?_eq {α : Type} {l : List α} {a : α}
    (h : l.getLast? = some a) : a ∈ l := by
  cases l with
  | nil => cases h
  | cons b t =>
    rw [List.getLast?_eq_getLast _ (by simp)] at h
    exact Option.some_inj.mp h ▸ List.getLast_mem _

/-! Slot lookups in a freshly initialized pool. -/

/-- Lookup in the initial slot array. -/
theorem initPool_get? (addr N j : Nat) :
    (initPool T addr N).slots.get? j =
      if j < N + 1 then
        some (if j < N then SlotContent.free (some (j + 1))
              else SlotContent.free none)
      else none := by
  show ((List.range (N + 1)).map _).get? j = _
  rw [List.get?_map]
  by_cases h : j < N + 1
  · rw [List.get?_range h]
    simp [h]
  · rw [List.get?_eq_none.mpr (by simp [List.length_range]; omega)]
    simp [h]

/-- The suffix of the initial free list starting at slot `k` is the index
interval from `k` to `N`. -/
theorem isChain_initPool_from {addr N : Nat} :
    ∀ m k, k + m = N →
      IsChain (initPool T addr N).slots k (List.range' k (m + 1)) := by
  intro m
  induction m with
  | zero =>
    intro k hk
    have hkN : k = N := by omega
    refine .last k ?_
    rw [initPool_get?]
    simp [hkN]
  | succ m ih =>
    intro k hk
    rw [List.range'_succ]
    refine .cons k (k + 1) (List.range' (k + 1) (m + 1)) ?_ (ih (k + 1) (by omega))
    rw [initPool_get?]
    have h1 : k < N := by omega
    simp [h1, Nat.lt_succ_of_lt h1]

/-- The freshly initialized pool satisfies the invariant with chain
`[0, 1, …, N]`. -/
theorem invc_initPool (addr N : Nat) :
    InvC (initPool T addr N) (List.range (N + 1)) := by
  refine ⟨?_, List.nodup_range _, ?_, ?_, ?_⟩
  · rw [List.range_eq_range']
    exact isChain_initPool_from (N + 1 - 1) 0 (by omega)
  · show (List.range (N + 1)).getLast? = some N
    rw [List.range_succ]
    exact List.getLast?_concat _
  · intro j hj
    have hlen : (initPool T addr N).slots.length = N + 1 := by
      show ((List.range (N + 1)).map _).length = N + 1
      rw [List.length_map, List.length_range]
    rw [hlen] at hj
    constructor
    · intro _ hal
      obtain ⟨bp, d, hd⟩ := hal
      rw [initPool_get?] at hd
      simp [hj] at hd
      by_cases h2 : j < N <;> simp [h2] at hd
    · intro _
      exact List.mem_range.mpr hj
  · intro j hj
    have hlen : (initPool T addr N).slots.length = N + 1 := by
      show ((List.range (N + 1)).map _).length = N + 1
      rw [List.length_map, List.length_range]
    rw [hlen]
    exact List.mem_range.mp hj

/-! Preservation of the invariant by the four completed operations. -/

/-- Sequentially, the lock-free allocator computes exactly what the
single-threaded one does. -/
theorem mtConstruct_eq_stConstruct (p : Pool T) (mk : Except E T) :
    mtConstruct p mk = stConstruct p mk := by
  unfold mtConstruct stConstruct
  cases linkOf (p.slots.get? p.head) <;> cases mk <;> rfl

/-- Sequentially, the wait-free releaser computes exactly what the
single-threaded one does. -/
theorem mtDestroy_eq_stDestroy (p : Pool T) (i : Nat) :
    mtDestroy p i = stDestroy p i := rfl

/-- On a pool whose free chain has at least two slots, a non-throwing
allocation succeeds, hands out the head slot, and shortens the chain by
one. -/
theorem invc_stConstruct_ok {p : Pool T} {l : List Nat} (hl : InvC p l)
    (h2 : 2 ≤ l.length) (v : T) :
    (stConstruct p (.ok v : Except E T)).1 = .ok (some p.head) ∧
    InvC (stConstruct p (.ok v : Except E T)).2 l.tail := by
  obtain ⟨hc, hnd, hlast, hmem, hlt⟩ := hl
  cases hc with
  | last m hm => simp at h2
  | cons m j l2 hm tl =>
    have hhead_lt : p.head < p.slots.length := (List.get?_eq_some.mp hm).1
    have hnotin : p.head ∉ l2 := (List.nodup_cons.mp hnd).1
    have hst : stConstruct p (.ok v : Except E T) =
        (.ok (some p.head),
         { p with slots := p.slots.set p.head (.alloc p.addr v), head := j }) := by
      simp only [stConstruct, hm, linkOf_free]
    rw [hst]
    refine ⟨rfl, ?_, ?_, ?_, ?_, ?_⟩
    · exact isChain_set_of_notMem tl hnotin
    · exact (List.nodup_cons.mp hnd).2
    · obtain ⟨l3, rfl⟩ := isChain_cons_shape tl
      rw [List.getLast?_cons_cons] at hlast
      exact hlast
    · intro j2 hj2
      rw [List.length_set] at hj2
      by_cases he : j2 = p.head
      · simp only [List.tail_cons]
        constructor
        · intro hin _
          exact hnotin (he ▸ hin)
        · intro hna
          exfalso
          exact hna ⟨p.addr, v, by
            rw [he, List.get?_set_eq_of_lt _ hhead_lt]⟩
      · have hget : ((p.slots.set p.head (.alloc p.addr v)).get? j2) =
            p.slots.get? j2 := List.get?_set_ne _ _ fun h3 => he h3.symm
        have hiff := hmem j2 hj2
        rw [List.mem_cons] at hiff
        simp only [List.tail_cons]
        constructor
        · intro hin hal
          obtain ⟨bp, d, hd⟩ := hal
          rw [hget] at hd
          exact (hiff.mp (Or.inr hin)) ⟨bp, d, hd⟩
        · intro hna
          rcases hiff.mpr (fun hal => hna (by
              obtain ⟨bp, d, hd⟩ := hal
              exact ⟨bp, d, by rw [hget]; exact hd⟩)) with h4 | h4
          · exact absurd h4 he
          · exact h4
    · intro j2 hj2
      rw [List.length_set]
      simp only [List.tail_cons] at hj2
      exact hlt j2 (List.mem_cons_of_mem _ hj2)

/-- On an exhausted pool (free chain is just the sentinel), any allocation
attempt returns an empty handle and leaves the state untouched, whatever
the constructor would have done. -/
theorem invc_stConstruct_exhausted {p : Pool T} {l : List Nat}
    (hl : InvC p l) (h1 : l.length = 1) (mk : Except E T) :
    stConstruct p mk = (.ok none, p) := by
  obtain ⟨hc, _, _, _, _⟩ := hl
  cases hc with
  | last m hm => simp only [stConstruct, hm, linkOf_free]
  | cons m j l2 hm tl =>
    exfalso
    have := isChain_ne_nil tl
    simp at h1
    exact this h1

/-- A throwing constructor on a non-exhausted pool leaves the state exactly
as it was: the repair write puts back the link word the construction
clobbered (single-threaded variant). -/
theorem stConstruct_err_eq {p : Pool T} {n : Nat}
    (h : p.slots.get? p.head = some (.free (some n))) (e : E) :
    stConstruct p (.error e : Except E T) = (.error e, p) := by
  simp only [stConstruct, h, linkOf_free, setLink]
  rw [set_get?_self h]

/-- Releasing an allocated slot appends it to the chain (single-threaded
variant). -/
theorem invc_stDestroy {p : Pool T} {l : List Nat} {i : Nat}
    (hl : InvC p l) (hi : isAllocated p i) :
    InvC (stDestroy p i) (l ++ [i]) := by
  obtain ⟨hc, hnd, hlast, hmem, hlt⟩ := hl
  obtain ⟨bp, d, hid⟩ := hi
  have hilen : i < p.slots.length := (List.get?_eq_some.mp hid).1
  have hinl : i ∉ l := by
    intro hmemi
    obtain ⟨nx, hx⟩ := isChain_mem_free hc i hmemi
    rw [hid] at hx
    cases hx
  have htail_mem : p.tail ∈ l := mem_of_getLast?_eq hlast
  have hti : p.tail ≠ i := by
    intro he
    obtain ⟨nx, hx⟩ := isChain_mem_free hc p.tail htail_mem
    rw [he, hid] at hx
    cases hx
  refine ⟨?_, ?_, ?_, ?_, ?_⟩
  · exact isChain_extend hc p.tail i hlast hnd hinl hilen
  · rw [← List.concat_eq_append]
    exact List.Nodup.concat hinl hnd
  · show (l ++ [i]).getLast? = some i
    exact List.getLast?_concat _
  · intro j hj
    have hlen : (stDestroy p i).slots.length = p.slots.length := by
      show ((p.slots.set _ _).set _ _).length = _
      rw [List.length_set, List.length_set]
    rw [hlen] at hj
    by_cases hji : j = i
    · have hget : (stDestroy p i).slots.get? j = some (.free none) := by
        show ((p.slots.set i (.free none)).set p.tail (.free (some i))).get? j = _
        rw [hji, List.get?_set_ne _ _ hti, List.get?_set_eq_of_lt _ hilen]
      simp only [List.mem_append, List.mem_singleton]
      constructor
      · intro _ hal
        obtain ⟨bp2, d2, hd2⟩ := hal
        rw [hget] at hd2
        cases hd2
      · intro _
        exact Or.inr hji
    · by_cases hjt : j = p.tail
      · have htlen : p.tail < p.slots.length := hlt _ htail_mem
        have hget : (stDestroy p i).slots.get? j = some (.free (some i)) := by
          show ((p.slots.set i (.free none)).set p.tail (.free (some i))).get? j = _
          rw [hjt, List.get?_set_eq_of_lt]
          rw [List.length_set]
          exact htlen
        simp only [List.mem_append, List.mem_singleton]
        constructor
        · intro _ hal
          obtain ⟨bp2, d2, hd2⟩ := hal
          rw [hget] at hd2
          cases hd2
        · intro _
          exact Or.inl (hjt ▸ htail_mem)
      · have hget : (stDestroy p i).slots.get? j = p.slots.get? j := by
          show ((p.slots.set i (.free none)).set p.tail (.free (some i))).get? j = _
          rw [List.get?_set_ne _ _ fun h3 => hjt h3.symm,
            List.get?_set_ne _ _ fun h3 => hji h3.symm]
        have := hmem j hj
        simp only [List.mem_append, List.mem_singleton]
        constructor
        · intro hin hal
          obtain ⟨bp2, d2, hd2⟩ := hal
          rw [hget] at hd2
          rcases hin with h4 | h4
          · exact this.mp h4 ⟨bp2, d2, hd2⟩
          · exact hji h4
        · intro hna
          refine Or.inl (this.mpr fun hal => hna ?_)
          obtain ⟨bp2, d2, hd2⟩ := hal
          exact ⟨bp2, d2, by rw [hget]; exact hd2⟩
  · intro j hj
    have hlen : (stDestroy p i).slots.length = p.slots.length := by
      show ((p.slots.set _ _).set _ _).length = _
      rw [List.length_set, List.length_set]
    rw [hlen]
    rcases List.mem_append.mp hj with h4 | h4
    · exact hlt j h4
    · rw [List.mem_singleton] at h4
      subst h4
      exact hilen

/-- A completed single-threaded allocation preserves the invariant, whatever
the constructor outcome. -/
theorem inv_stConstruct (p : Pool T) (mk : Except E T) (hp : Inv p) :
    Inv (stConstruct p mk).2 := by
  obtain ⟨l, hl⟩ := hp
  have hc := hl.1
  cases hc with
  | last m hm =>
    have he : stConstruct p mk = (.ok none, p) := by
      simp only [stConstruct, hm, linkOf_free]
    rw [he]
    exact ⟨_, hl⟩
  | cons m j l2 hm tl =>
    cases mk with
    | ok v =>
      have h2 : 2 ≤ (p.head :: l2).length := by
        have hne := isChain_ne_nil tl
        cases l2 with
        | nil => exact absurd rfl hne
        | cons a b => simp
      exact ⟨(p.head :: l2).tail, (invc_stConstruct_ok hl h2 v).2⟩
    | error e =>
      rw [stConstruct_err_eq hm e]
      exact ⟨_, hl⟩

/-- A completed single-threaded release of a live slot preserves the
invariant. -/
theorem inv_stDestroy (p : Pool T) (i : Nat) (h : isAllocated p i)
    (hp : Inv p) : Inv (stDestroy p i) := by
  obtain ⟨l, hl⟩ := hp
  exact ⟨l ++ [i], invc_stDestroy hl h⟩

/-- Every completed operation preserves the invariant. -/
theorem inv_step {p q : Pool T} (hs : Step p q) (hp : Inv p) : Inv q := by
  cases hs with
  | stC mk => exact inv_stConstruct p mk hp
  | mtC mk =>
    rw [mtConstruct_eq_stConstruct]
    exact inv_stConstruct p mk hp
  | stD i h => exact inv_stDestroy p i h hp
  | mtD i h =>
    rw [mtDestroy_eq_stDestroy]
    exact inv_stDestroy p i h hp

/-- The invariant holds in every state reachable from an invariant state. -/
theorem inv_reachable {p q : Pool T} (h : Reachable p q) (hp : Inv p) :
    Inv q := by
  induction h with
  | refl => exact hp
  | tail _ hstep ih => exact inv_step hstep ih

/-! The state after `k` in-order allocations from a fresh pool. -/

/-- Allocating into slot `k` of the `k`-filled state yields the
`(k+1)`-filled slot array. -/
theorem fillSlots_set (addr N k : Nat) (f : Nat → T) :
    (fillSlots addr N k f).set k (.alloc addr (f k)) =
      fillSlots addr N (k + 1) f := by
  apply List.ext
  intro n
  rw [List.get?_set]
  unfold fillSlots
  by_cases hkn : k = n
  · subst hkn
    rw [List.get?_map, List.get?_map]
    by_cases hk1 : k < N + 1
    · rw [List.get?_range hk1]
      simp [Nat.lt_succ_self]
    · rw [List.get?_eq_none.mpr (by simp [List.length_range]; omega)]
      simp
  · rw [if_neg hkn, List.get?_map, List.get?_map]
    by_cases hn : n < N + 1
    · rw [List.get?_range hn]
      have hsame :
          (if n < k then SlotContent.alloc addr (f n)
           else if n < N then SlotContent.free (some (n + 1))
           else SlotContent.free none) =
          (if n < k + 1 then SlotContent.alloc addr (f n)
           else if n < N then SlotContent.free (some (n + 1))
           else SlotContent.free none) := by
        by_cases h2 : n < k
        · have h3 : n < k + 1 := by omega
          rw [if_pos h2, if_pos h3]
        · have h3 : ¬ n < k + 1 := by omega
          rw [if_neg h2, if_neg h3]
      simp only [Option.map_some']
      rw [hsame]
    · rw [List.get?_eq_none.mpr (by simp [List.length_range]; omega)]
      rfl

/-- The slot array of the `k`-filled state, looked up below `k`. -/
theorem fillSlots_get?_lt (addr N k j : Nat) (f : Nat → T)
    (hj : j < k) (hjN : j < N + 1) :
    (fillSlots addr N k f).get? j = some (.alloc addr (f j)) := by
  unfold fillSlots
  rw [List.get?_map, List.get?_range hjN]
  simp [hj]

/-- The slot array of the `k`-filled state at the allocation frontier. -/
theorem fillSlots_get?_frontier (addr N k : Nat) (f : Nat → T)
    (hk : k < N) :
    (fillSlots addr N k f).get? k = some (.free (some (k + 1))) := by
  unfold fillSlots
  rw [List.get?_map, List.get?_range (by omega)]
  simp only [Option.map_some']
  rw [if_neg (Nat.lt_irrefl k), if_pos hk]

/-- The slot array of the fully filled state at the sentinel. -/
theorem fillSlots_get?_sentinel (addr N : Nat) (f : Nat → T) :
    (fillSlots addr N N f).get? N = some (.free none) := by
  unfold fillSlots
  rw [List.get?_map, List.get?_range (by omega)]
  simp

/-- After `k ≤ N` in-order allocations from a fresh pool, the state is the
explicit `k`-filled state: slots below `k` allocated, the free chain running
from `k` to the sentinel `N`. -/
theorem allocIter_initPool (addr N : Nat) (f : Nat → T) :
    ∀ k, k ≤ N →
      allocIter f k (initPool T addr N) =
        ⟨addr, fillSlots addr N k f, k, N⟩ := by
  intro k
  induction k with
  | zero =>
    intro _
    show initPool T addr N = _
    have hs : fillSlots addr N 0 f =
        (List.range (N + 1)).map fun i =>
          if i < N then SlotContent.free (some (i + 1))
          else SlotContent.free none := by
      unfold fillSlots
      apply List.map_congr_left
      intro j _
      simp
    unfold initPool
    rw [hs]
  | succ k ih =>
    intro hk
    have hk2 : k ≤ N := Nat.le_of_succ_le hk
    show (stConstruct (allocIter f k (initPool T addr N))
        (.ok (f k) : Except Unit T)).2 = _
    rw [ih hk2]
    have hget := fillSlots_get?_frontier addr N k f (by omega)
    have hst : stConstruct (⟨addr, fillSlots addr N k f, k, N⟩ : Pool T)
        (.ok (f k) : Except Unit T) =
        (.ok (some k),
          ⟨addr, (fillSlots addr N k f).set k (.alloc addr (f k)), k + 1, N⟩) := by
      simp only [stConstruct, hget, linkOf_free]
    rw [hst, fillSlots_set]

/-! Round-trip machinery for C9: batch release and re-allocation. -/

/-- Destroying a duplicate-free batch of live slots appends them to the
chain in release order. -/
theorem invc_destroyIter :
    ∀ (rs : List Nat) (p : Pool T) (l : List Nat), InvC p l → rs.Nodup →
      (∀ j ∈ rs, isAllocated p j) →
      InvC (destroyIter rs p) (l ++ rs) := by
  intro rs
  induction rs with
  | nil =>
    intro p l hl _ _
    simpa using hl
  | cons a rs ih =>
    intro p l hl hnd hal
    show InvC (destroyIter rs (stDestroy p a)) _
    have ha : isAllocated p a := hal a (List.mem_cons_self a rs)
    have h1 : InvC (stDestroy p a) (l ++ [a]) := invc_stDestroy hl ha
    have h2 : ∀ j ∈ rs, isAllocated (stDestroy p a) j := by
      intro j hj
      have hja : j ≠ a := fun he => (List.nodup_cons.mp hnd).1 (he ▸ hj)
      obtain ⟨bp, d, hd⟩ := hal j (List.mem_cons_of_mem _ hj)
      have htail_mem : p.tail ∈ l := mem_of_getLast?_eq hl.2.2.1
      have htj : p.tail ≠ j := by
        intro he
        obtain ⟨nx, hx⟩ := isChain_mem_free hl.1 p.tail htail_mem
        rw [he, hd] at hx
        cases hx
      refine ⟨bp, d, ?_⟩
      show ((p.slots.set a (.free none)).set p.tail (.free (some a))).get? j = _
      rw [List.get?_set_ne _ _ htj, List.get?_set_ne _ _ fun he => hja he.symm]
      exact hd
    have h3 := ih (stDestroy p a) (l ++ [a]) h1 (List.nodup_cons.mp hnd).2 h2
    simpa [List.append_assoc] using h3

/-- Iterated allocation walks the chain down, slot by slot. -/
theorem invc_allocIter (g : Nat → T) :
    ∀ (m : Nat) (p : Pool T) (l : List Nat), InvC p l → m + 1 ≤ l.length →
      InvC (allocIter g m p) (l.drop m) := by
  intro m
  induction m with
  | zero =>
    intro p l hl _
    simpa using hl
  | succ m ih =>
    intro p l hl hm
    show InvC (stConstruct (allocIter g m p) (.ok (g m) : Except Unit T)).2 _
    have h1 := ih p l hl (by omega)
    have hlen : (l.drop m).length = l.length - m := List.length_drop m l
    have h2 : 2 ≤ (l.drop m).length := by omega
    have h3 := (invc_stConstruct_ok (E := Unit) h1 h2 (g m)).2
    rw [List.tail_drop] at h3
    exact h3

/-- While at least two slots remain on the chain, each further allocation
succeeds. -/
theorem allocIter_succeeds (g : Nat → T) {p : Pool T} {l : List Nat}
    (hl : InvC p l) (m : Nat) (hm : m + 2 ≤ l.length) :
    (stConstruct (allocIter g m p) (.ok (g m) : Except Unit T)).1 =
      .ok (some (allocIter g m p).head) := by
  have h1 := invc_allocIter g m p l hl (by omega)
  have h2 : 2 ≤ (l.drop m).length := by rw [List.length_drop]; omega
  exact (invc_stConstruct_ok (E := Unit) h1 h2 (g m)).1

/-- Batch release preserves the slot-array length. -/
theorem destroyIter_length :
    ∀ (rs : List Nat) (p : Pool T),
      (destroyIter rs p).slots.length = p.slots.length := by
  intro rs
  induction rs with
  | nil => intro p; rfl
  | cons a rs ih =>
    intro p
    show (destroyIter rs (stDestroy p a)).slots.length = _
    rw [ih]
    show ((p.slots.set _ _).set _ _).length = _
    rw [List.length_set, List.length_set]

/-- Length of the `k`-filled slot array. -/
theorem fillSlots_length (addr N k : Nat) (f : Nat → T) :
    (fillSlots addr N k f).length = N + 1 := by
  unfold fillSlots
  rw [List.length_map, List.length_range]


/-! The claims. -/

/-- C1, counterexample to the claim as stated: in the SPSC `N = 3` seed run
the second allocation hands out slot 1, but the allocation that follows the
release of that handle hands out slot 3 — the original sentinel, whose
payload address differs from slot 1's under the concrete layout.  The
released slot becomes the new sentinel instead of being handed back. -/
theorem spsc_n3_addr_reuse_cex :
    (stConstruct spscP1 (.ok (1, 1) : Except Unit (Nat × Nat))).1 = .ok (some 1) ∧
    (stConstruct spscP4 (.ok (7, 8) : Except Unit (Nat × Nat))).1 = .ok (some 3) ∧
    payloadAddr layout16 3 ≠ payloadAddr layout16 1 :=
  ⟨rfl, rfl, by decide⟩

/-- C1 (amended): SPSC pool with `N = 3`; the three allocations hand out
slots 0, 1, 2; the fourth allocation returns an empty handle and changes
nothing; after releasing the second handle (slot 1), the next allocation
returns a handle whose payload address equals the payload address of the
original sentinel slot (slot 3, the slot `tail` pointed at before the
release), its stored value is whatever the caller passed, and the released
slot 1 is now the sentinel. -/
theorem spsc_n3_scenario (v : Nat × Nat) :
    (stConstruct spscP0 (.ok (0, 0) : Except Unit (Nat × Nat))).1 = .ok (some 0) ∧
    (stConstruct spscP1 (.ok (1, 1) : Except Unit (Nat × Nat))).1 = .ok (some 1) ∧
    (stConstruct spscP2 (.ok (2, 2) : Except Unit (Nat × Nat))).1 = .ok (some 2) ∧
    stConstruct spscP3 (.ok (9, 9) : Except Unit (Nat × Nat)) = (.ok none, spscP3) ∧
    (stConstruct spscP4 (.ok v : Except Unit (Nat × Nat))).1 = .ok (some 3) ∧
    payloadAddr layout16 3 = payloadAddr layout16 spscP0.tail ∧
    (stConstruct spscP4 (.ok v : Except Unit (Nat × Nat))).2.slots.get? 3 =
      some (.alloc 100 v) ∧
    (stConstruct spscP4 (.ok v : Except Unit (Nat × Nat))).2.tail = 1 := by
  exact ⟨rfl, rfl, rfl, rfl, rfl, rfl, rfl, rfl⟩

/-- C1 witness: the amended scenario at concrete final arguments. -/
theorem spsc_n3_scenario_witness :
    (stConstruct spscP4 (.ok (7, 8) : Except Unit (Nat × Nat))).1 = .ok (some 3) ∧
    (stConstruct spscP4 (.ok (7, 8) : Except Unit (Nat × Nat))).2.tail = 1 :=
  ⟨(spsc_n3_scenario (7, 8)).2.2.2.2.1, (spsc_n3_scenario (7, 8)).2.2.2.2.2.2.2⟩


/-- C3: if the constructor throws after the lock-free pop consumed a slot,
the recovery CAS loop reinstates the slot at the head and the original
exception propagates unchanged; the final state is exactly the state before
the attempt, so no slot is leaked. -/
theorem mt_construct_exception_restores (p : Pool T) (n : Nat) (e : E)
    (h : p.slots.get? p.head = some (.free (some n))) :
    mtConstruct p (.error e : Except E T) = (.error e, p) := by
  rw [mtConstruct_eq_stConstruct]
  exact stConstruct_err_eq h e

/-- C3 witness: the recovery path at a concrete pool. -/
theorem mt_construct_exception_restores_witness :
    mtConstruct spscP0 (.error 42 : Except Nat (Nat × Nat)) = (.error 42, spscP0) :=
  mt_construct_exception_restores spscP0 1 42 (by decide)

/-- C4: if the single-threaded constructor throws on a non-exhausted pool,
the state is restored exactly (head unchanged, `head.next` repaired), the
exception propagates unchanged, and the next non-throwing allocation hands
out the very slot the failed attempt used. -/
theorem st_construct_exception_no_consume (p : Pool T) (n : Nat) (e : E) (v : T)
    (h : p.slots.get? p.head = some (.free (some n))) :
    stConstruct p (.error e : Except E T) = (.error e, p) ∧
    (stConstruct (stConstruct p (.error e : Except E T)).2
        (.ok v : Except E T)).1 = .ok (some p.head) ∧
    (stConstruct p (.ok v : Except E T)).1 = .ok (some p.head) := by
  have h1 := stConstruct_err_eq h e
  refine ⟨h1, ?_, ?_⟩
  · rw [h1]
    simp only [stConstruct, h, linkOf_free]
  · simp only [stConstruct, h, linkOf_free]

/-- C4 witness: the failed-then-retried allocation at a concrete pool. -/
theorem st_construct_exception_no_consume_witness :
    stConstruct spscP0 (.error 3 : Except Nat (Nat × Nat)) = (.error 3, spscP0) ∧
    (stConstruct (stConstruct spscP0 (.error 3 : Except Nat (Nat × Nat))).2
        (.ok (5, 6) : Except Nat (Nat × Nat))).1 = .ok (some spscP0.head) ∧
    (stConstruct spscP0 (.ok (5, 6) : Except Nat (Nat × Nat))).1 =
      .ok (some spscP0.head) :=
  st_construct_exception_no_consume spscP0 1 3 (5, 6) (by decide)

/-- C7: after construction (static variant under its `static_assert`, or
dynamic variant) of a pool of capacity `N ≥ 1`, the free list is the chain
`slot 0 → slot 1 → … → slot N → null` with `head = slot 0` and
`tail = slot N`, and in particular `head.next` is slot 1 (the sentinel when
`N = 1`). -/
theorem init_builds_full_chain (T2 : Type) (addr N : Nat) (hN : 1 ≤ N) :
    staticInit T2 addr N hN = initPool T2 addr N ∧
    dynamicInit T2 addr N = initPool T2 addr N ∧
    (initPool T2 addr N).head = 0 ∧
    (initPool T2 addr N).tail = N ∧
    IsChain (initPool T2 addr N).slots 0 (List.range (N + 1)) ∧
    linkOf ((initPool T2 addr N).slots.get? 0) = some 1 := by
  refine ⟨rfl, rfl, rfl, rfl, ?_, ?_⟩
  · rw [List.range_eq_range']
    exact isChain_initPool_from N 0 (by omega)
  · rw [initPool_get?]
    have h0 : (0 : Nat) < N := hN
    simp [h0]

/-- C7 witness: the initial chain at capacity 2. -/
theorem init_builds_full_chain_witness :
    IsChain (initPool Nat 0 2).slots 0 (List.range 3) ∧
    linkOf ((initPool Nat 0 2).slots.get? 0) = some 1 :=
  ⟨(init_builds_full_chain Nat 0 2 (by decide)).2.2.2.2.1,
   (init_builds_full_chain Nat 0 2 (by decide)).2.2.2.2.2⟩

/-- C10: the dynamic variant performs no `size ≥ 1` check (unlike the static
variant's `static_assert`), so size 0 constructs fine; the single slot is
both head and sentinel with a null link, every allocation (either
discipline) returns an empty handle leaving the state unchanged, and no
slot is ever allocated — the pool is permanently exhausted. -/
theorem dynamic_zero_capacity_exhausted (T2 : Type) (addr : Nat) :
    (dynamicInit T2 addr 0).head = 0 ∧
    (dynamicInit T2 addr 0).tail = 0 ∧
    (dynamicInit T2 addr 0).slots = [.free none] ∧
    (∀ (E2 : Type) (mk : Except E2 T2),
      stConstruct (dynamicInit T2 addr 0) mk = (.ok none, dynamicInit T2 addr 0) ∧
      mtConstruct (dynamicInit T2 addr 0) mk = (.ok none, dynamicInit T2 addr 0)) ∧
    (∀ i, ¬ isAllocated (dynamicInit T2 addr 0) i) := by
  refine ⟨rfl, rfl, rfl, fun E2 mk => ⟨rfl, rfl⟩, ?_⟩
  intro i hal
  obtain ⟨bp, d, hd⟩ := hal
  have hslots : (dynamicInit T2 addr 0).slots = [SlotContent.free none] := rfl
  rw [hslots] at hd
  cases i with
  | zero => exact absurd hd (by simp)
  | succ n => simp at hd

/-- C10 witness: the zero-capacity dynamic pool at a concrete instantiation. -/
theorem dynamic_zero_capacity_exhausted_witness :
    stConstruct (dynamicInit Nat 7 0) (.ok 1 : Except Unit Nat) =
      (.ok none, dynamicInit Nat 7 0) :=
  ((dynamic_zero_capacity_exhausted Nat 7).2.2.2.1 Unit (.ok 1)).1

/-- C2: in every state reachable from a freshly initialized pool by
completed construct and destroy operations (either discipline each time),
the slot `tail` points at — the sentinel — has a null next, and the chain
followed from `head` via the next pointers is duplicate-free and terminates
at the sentinel. -/
theorem reachable_state_chain (T2 : Type) (addr N : Nat) (p : Pool T2)
    (h : Reachable (initPool T2 addr N) p) :
    p.slots.get? p.tail = some (.free none) ∧
    ∃ l, IsChain p.slots p.head l ∧ l.Nodup ∧ l.getLast? = some p.tail := by
  have hinv : Inv p := inv_reachable h ⟨_, invc_initPool addr N⟩
  obtain ⟨l, hc, hnd, hlast, _, _⟩ := hinv
  exact ⟨isChain_getLast_free hc hlast, l, hc, hnd, hlast⟩

/-- C2 witness: the invariant at a concrete reachable state (one completed
allocation from a fresh pool of capacity 2). -/
theorem reachable_state_chain_witness :
    (stConstruct (initPool Nat 0 2) (.ok 5 : Except Unit Nat)).2.slots.get?
        (stConstruct (initPool Nat 0 2) (.ok 5 : Except Unit Nat)).2.tail =
      some (.free none) ∧
    ∃ l, IsChain (stConstruct (initPool Nat 0 2) (.ok 5 : Except Unit Nat)).2.slots
        (stConstruct (initPool Nat 0 2) (.ok 5 : Except Unit Nat)).2.head l ∧
      l.Nodup ∧
      l.getLast? =
        some (stConstruct (initPool Nat 0 2) (.ok 5 : Except Unit Nat)).2.tail :=
  reachable_state_chain Nat 0 2 _
    (Relation.ReflTransGen.single (Step.stC (initPool Nat 0 2) (.ok 5)))

/-- C5: for every capacity `N`, pool address, and constructor arguments
(both storage variants initialize identically, and the two construct
disciplines compute identically), the first `N` allocations each succeed
handing out slot `k`, and the `(N+1)`-th allocation returns an empty
handle. -/
theorem capacity_exhaustion (T2 : Type) (addr N : Nat) (f : Nat → T2) :
    (∀ k, k < N →
      (stConstruct (allocIter f k (initPool T2 addr N))
          (.ok (f k) : Except Unit T2)).1 = .ok (some k) ∧
      (mtConstruct (allocIter f k (initPool T2 addr N))
          (.ok (f k) : Except Unit T2)).1 = .ok (some k)) ∧
    (stConstruct (allocIter f N (initPool T2 addr N))
        (.ok (f N) : Except Unit T2)).1 = .ok none ∧
    (mtConstruct (allocIter f N (initPool T2 addr N))
        (.ok (f N) : Except Unit T2)).1 = .ok none := by
  constructor
  · intro k hk
    rw [allocIter_initPool addr N f k (le_of_lt hk), mtConstruct_eq_stConstruct]
    have hget := fillSlots_get?_frontier addr N k f hk
    constructor <;> simp only [stConstruct, hget, linkOf_free]
  · rw [allocIter_initPool addr N f N (le_refl N), mtConstruct_eq_stConstruct]
    have hget := fillSlots_get?_sentinel addr N f
    constructor <;> simp only [stConstruct, hget, linkOf_free]

/-- C5 witness: capacity 2, in-order values. -/
theorem capacity_exhaustion_witness :
    (stConstruct (allocIter id 0 (initPool Nat 0 2))
        (.ok (id 0) : Except Unit Nat)).1 = .ok (some 0) ∧
    (stConstruct (allocIter id 2 (initPool Nat 0 2))
        (.ok (id 2) : Except Unit Nat)).1 = .ok none :=
  ⟨((capacity_exhaustion Nat 0 2 id).1 0 (by decide)).1,
   (capacity_exhaustion Nat 0 2 id).2.1⟩

/-- C6: releasing an allocated slot (either destroy discipline — they
compute the same state) destroys the payload in place (the slot reverts to
the link view with a null next), makes the released slot the new sentinel
(`tail` ends up pointing at it), and links the previous sentinel to the
released slot, so the previous sentinel becomes an ordinary free node
reachable from `head` along the chain. -/
theorem destroy_appends_slot_at_tail (p : Pool T) (i bp : Nat) (d : T)
    (hi : p.slots.get? i = some (.alloc bp d))
    (ht : p.slots.get? p.tail = some (.free none)) :
    mtDestroy p i = stDestroy p i ∧
    (stDestroy p i).tail = i ∧
    (stDestroy p i).slots.get? i = some (.free none) ∧
    (stDestroy p i).slots.get? p.tail = some (.free (some i)) ∧
    (∀ l, InvC p l →
      IsChain (stDestroy p i).slots (stDestroy p i).head (l ++ [i]) ∧
      p.tail ∈ l) := by
  have hti : p.tail ≠ i := by
    intro he
    rw [he, hi] at ht
    cases ht
  have hilen : i < p.slots.length := (List.get?_eq_some.mp hi).1
  have htlen : p.tail < p.slots.length := (List.get?_eq_some.mp ht).1
  refine ⟨rfl, rfl, ?_, ?_, ?_⟩
  · show ((p.slots.set i (.free none)).set p.tail (.free (some i))).get? i = _
    rw [List.get?_set_ne _ _ hti, List.get?_set_eq_of_lt _ hilen]
  · show ((p.slots.set i (.free none)).set p.tail (.free (some i))).get? p.tail = _
    rw [List.get?_set_eq_of_lt]
    rw [List.length_set]
    exact htlen
  · intro l hl
    exact ⟨(invc_stDestroy hl ⟨bp, d, hi⟩).1, mem_of_getLast?_eq hl.2.2.1⟩

/-- C6 witness: releasing slot 1 of the three-quarters-full SPSC pool. -/
theorem destroy_appends_slot_at_tail_witness :
    mtDestroy spscP3 1 = stDestroy spscP3 1 ∧
    (stDestroy spscP3 1).tail = 1 ∧
    (stDestroy spscP3 1).slots.get? 1 = some (.free none) ∧
    (stDestroy spscP3 1).slots.get? spscP3.tail = some (.free (some 1)) :=
  ⟨(destroy_appends_slot_at_tail spscP3 1 100 (1, 1) (by decide) (by decide)).1,
   (destroy_appends_slot_at_tail spscP3 1 100 (1, 1) (by decide) (by decide)).2.1,
   (destroy_appends_slot_at_tail spscP3 1 100 (1, 1) (by decide) (by decide)).2.2.1,
   (destroy_appends_slot_at_tail spscP3 1 100 (1, 1) (by decide) (by decide)).2.2.2.1⟩

/-- C8: a successful allocation hands out the head slot; in the resulting
state the machine word at the slot start (one pointer word below the
payload address) is the owning pool's address, and running the deleter on
the payload address reads back exactly that pool address and invokes
destroy on the containing slot.  The lock-free discipline computes the same
allocation. -/
theorem handle_backptr_and_deleter (L : Layout) (p : Pool T)
    (mk : Except E T) (i : Nat) (hs : 1 ≤ L.stride)
    (hr : (stConstruct p mk).1 = .ok (some i)) :
    i = p.head ∧
    (∃ v, mk = .ok v ∧
      (stConstruct p mk).2.slots.get? i = some (.alloc p.addr v)) ∧
    payloadAddr L i - wordSize = slotAddr L i ∧
    addrToIndex L (slotAddr L i) = i ∧
    deleterRun L (stConstruct p mk).2 (payloadAddr L i) =
      (p.addr, stDestroy (stConstruct p mk).2 i) ∧
    mtConstruct p mk = stConstruct p mk := by
  cases hl : linkOf (p.slots.get? p.head) with
  | none =>
    rw [show stConstruct p mk = (.ok none, p) by
      simp only [stConstruct, hl]] at hr
    simp at hr
  | some n =>
    have hhead : p.head < p.slots.length := by
      cases hg : p.slots.get? p.head with
      | none => rw [hg] at hl; cases hl
      | some s => exact (List.get?_eq_some.mp hg).1
    cases mk with
    | error e =>
      rw [show stConstruct p (.error e : Except E T) =
          (.error e, { p with slots := setLink (some n) p.slots p.head }) by
        simp only [stConstruct, hl]] at hr
      simp at hr
    | ok v =>
      have hst : stConstruct p (.ok v : Except E T) =
          (.ok (some p.head),
           { p with slots := p.slots.set p.head (.alloc p.addr v), head := n }) := by
        simp only [stConstruct, hl]
      rw [hst] at hr
      simp only [Except.ok.injEq, Option.some.injEq] at hr
      subst hr
      have hcursor : payloadAddr L p.head - wordSize = slotAddr L p.head := by
        show slotAddr L p.head + wordSize - wordSize = slotAddr L p.head
        omega
      have hidx : addrToIndex L (slotAddr L p.head) = p.head := by
        show (L.base + L.stride * p.head - L.base) / L.stride = p.head
        rw [Nat.add_sub_cancel_left]
        exact Nat.mul_div_cancel_left p.head hs
      have hget : (stConstruct p (.ok v : Except E T)).2.slots.get? p.head =
          some (.alloc p.addr v) := by
        rw [hst]
        exact List.get?_set_eq_of_lt _ hhead
      refine ⟨rfl, ⟨v, rfl, hget⟩, hcursor, hidx, ?_,
        mtConstruct_eq_stConstruct p _⟩
      show (_, stDestroy _ (addrToIndex L (payloadAddr L p.head - wordSize))) = _
      rw [hcursor, hidx]
      have hbp :
          (match (stConstruct p (.ok v : Except E T)).2.slots.get? p.head with
            | some (.alloc b _) => b
            | _ => 0) = p.addr := by
        rw [hget]
      rw [hbp]

/-- C8 witness: the first allocation from a fresh SPSC pool under the
concrete 16-byte layout. -/
theorem handle_backptr_and_deleter_witness :
    (0 : Nat) = spscP0.head ∧
    (∃ v, (.ok (5, 6) : Except Unit (Nat × Nat)) = .ok v ∧
      (stConstruct spscP0 (.ok (5, 6) : Except Unit (Nat × Nat))).2.slots.get? 0 =
        some (.alloc spscP0.addr v)) ∧
    payloadAddr layout16 0 - wordSize = slotAddr layout16 0 ∧
    addrToIndex layout16 (slotAddr layout16 0) = 0 ∧
    deleterRun layout16 (stConstruct spscP0 (.ok (5, 6) : Except Unit (Nat × Nat))).2
        (payloadAddr layout16 0) =
      (spscP0.addr,
       stDestroy (stConstruct spscP0 (.ok (5, 6) : Except Unit (Nat × Nat))).2 0) ∧
    mtConstruct spscP0 (.ok (5, 6) : Except Unit (Nat × Nat)) =
      stConstruct spscP0 (.ok (5, 6) : Except Unit (Nat × Nat)) :=
  handle_backptr_and_deleter layout16 spscP0 (.ok (5, 6)) 0 (by decide) rfl

/-- C9: for `k ≤ N`, after `k` allocations and then the release of all `k`
handles in any order, the free chain once again holds every slot index
exactly once (it is a duplicate-free permutation of `0 … N`), no slot is
allocated, and `k` further allocations all succeed. -/
theorem roundtrip_refill (T2 : Type) (addr N k : Nat) (f g : Nat → T2)
    (rs : List Nat) (hk : k ≤ N) (hrs : rs.Perm (List.range k)) :
    (∃ l, IsChain (destroyIter rs (allocIter f k (initPool T2 addr N))).slots
        (destroyIter rs (allocIter f k (initPool T2 addr N))).head l ∧
      l.Nodup ∧ l.Perm (List.range (N + 1))) ∧
    (∀ j, ¬ isAllocated (destroyIter rs (allocIter f k (initPool T2 addr N))) j) ∧
    (∀ m, m < k →
      (stConstruct
          (allocIter g m (destroyIter rs (allocIter f k (initPool T2 addr N))))
          (.ok (g m) : Except Unit T2)).1 =
        .ok (some (allocIter g m
          (destroyIter rs (allocIter f k (initPool T2 addr N)))).head)) := by
  have hfill := allocIter_initPool addr N f k hk
  have hinv0 : InvC (initPool T2 addr N) (List.range (N + 1)) :=
    invc_initPool addr N
  have hinv1 : InvC (allocIter f k (initPool T2 addr N))
      ((List.range (N + 1)).drop k) :=
    invc_allocIter f k _ _ hinv0 (by rw [List.length_range]; omega)
  have hrsnd : rs.Nodup := hrs.nodup_iff.mpr (List.nodup_range k)
  have hal : ∀ j ∈ rs, isAllocated (allocIter f k (initPool T2 addr N)) j := by
    intro j hj
    have hjk : j < k := List.mem_range.mp (hrs.mem_iff.mp hj)
    rw [hfill]
    exact ⟨addr, f j, fillSlots_get?_lt addr N k j f hjk (by omega)⟩
  have hinv2 := invc_destroyIter rs _ _ hinv1 hrsnd hal
  have hperm : ((List.range (N + 1)).drop k ++ rs).Perm (List.range (N + 1)) := by
    have htake : (List.range (N + 1)).take k = List.range k := by
      rw [List.take_range]
      congr 1
      omega
    have h1 : ((List.range (N + 1)).drop k ++ rs).Perm
        ((List.range (N + 1)).drop k ++ List.range k) :=
      List.Perm.append_left _ hrs
    have h2 : ((List.range (N + 1)).drop k ++ List.range k).Perm
        (List.range k ++ (List.range (N + 1)).drop k) :=
      List.perm_append_comm
    have h3 : List.range k ++ (List.range (N + 1)).drop k = List.range (N + 1) := by
      rw [← htake, List.take_append_drop]
    have h4 : (List.range k ++ (List.range (N + 1)).drop k).Perm
        (List.range (N + 1)) := by
      rw [h3]
    exact (h1.trans h2).trans h4
  have hlen2 : (destroyIter rs (allocIter f k (initPool T2 addr N))).slots.length =
      N + 1 := by
    rw [destroyIter_length, hfill]
    exact fillSlots_length addr N k f
  have hlenc : ((List.range (N + 1)).drop k ++ rs).length = N + 1 := by
    rw [List.length_append, List.length_drop, List.length_range, hrs.length_eq,
      List.length_range]
    omega
  refine ⟨⟨(List.range (N + 1)).drop k ++ rs, hinv2.1, hinv2.2.1, hperm⟩, ?_, ?_⟩
  · intro j hal2
    obtain ⟨bp, d, hd⟩ := hal2
    have hjlen : j < (destroyIter rs (allocIter f k (initPool T2 addr N))).slots.length :=
      (List.get?_eq_some.mp hd).1
    have hjmem : j ∈ (List.range (N + 1)).drop k ++ rs :=
      hperm.mem_iff.mpr (List.mem_range.mpr (hlen2 ▸ hjlen))
    exact (hinv2.2.2.2.1 j hjlen).mp hjmem ⟨bp, d, hd⟩
  · intro m hm
    exact allocIter_succeeds g hinv2 m (by rw [hlenc]; omega)

/-- C9 witness: capacity 2, both slots allocated then released in reverse
order, then a further allocation succeeds. -/
theorem roundtrip_refill_witness :
    (¬ isAllocated (destroyIter [1, 0] (allocIter id 2 (initPool Nat 0 2))) 1) ∧
    (stConstruct
        (allocIter id 0 (destroyIter [1, 0] (allocIter id 2 (initPool Nat 0 2))))
        (.ok (id 0) : Except Unit Nat)).1 =
      .ok (some (allocIter id 0
        (destroyIter [1, 0] (allocIter id 2 (initPool Nat 0 2)))).head) :=
  ⟨(roundtrip_refill Nat 0 2 2 id id [1, 0] (by decide) (by decide)).2.1 1,
   (roundtrip_refill Nat 0 2 2 id id [1, 0] (by decide) (by decide)).2.2 0
     (by decide)⟩


end FL
